import Mathlib

/-!
Shallow embedding of the two PyTorch tutorial notebooks of this repository:
`char_rnn_generation_tutorial.ipynb` (character-level name generation) and the
sequence-models / LSTM part-of-speech tagging notebook.  Pure data-handling
code (vocabulary construction, one-hot encoding, the greedy sampling loop, the
data-loading guard, the training schedule) is translated into executable Lean
definitions; the neural network itself (a floating-point function) is kept
abstract as a parameter wherever a claim quantifies over its behaviour.
-/

set_option autoImplicit false
set_option linter.unusedVariables false
set_option linter.unusedSectionVars false

namespace PyTutorial

/-! ## Character dictionary (`char_rnn_generation_tutorial.ipynb`, cell 2)

`all_letters = string.ascii_letters + " .,;'-"` and
`n_letters = len(all_letters) + 1  # Plus EOS marker`.
`Char.ofNat 39` is the apostrophe character. -/

def ascii_letters : List Char :=
  "abcdefghijklmnopqrstuvwxyzABCDEFGHIJKLMNOPQRSTUVWXYZ".toList

def all_letters : List Char :=
  ascii_letters ++ [' ', '.', ',', ';', Char.ofNat 39, '-']

def n_letters : Nat := all_letters.length + 1

theorem all_letters_length : all_letters.length = 58 := by decide

theorem n_letters_eq : n_letters = 59 := by decide

/-! ## Python string / list indexing semantics

`s.find(c)` returns the first index of `c` in `s`, or `-1` when `c` does not
occur.  Indexing a sequence of length `n` with a negative index `i` addresses
position `n + i`. -/

/-- First index of `x` in a list, if any (the index semantics shared by
Python `str.find` and `list.index`). -/
def firstIdxOf {α : Type} [DecidableEq α] (x : α) : List α → Option Nat
  | [] => none
  | d :: ds => if d = x then some 0 else (firstIdxOf x ds).map (· + 1)

def pyFind (s : List Char) (c : Char) : Int :=
  match firstIdxOf c s with
  | some i => (i : Int)
  | none => -1

def pyIdx (n : Nat) (i : Int) : Nat :=
  (if i < 0 then (n : Int) + i else i).toNat

/-! ## One-hot tensors (cell 9 of the generation notebook)

`categoryTensor` builds a `1 × n_categories` zero tensor and writes a `1` at
`all_categories.index(category)`; Python `list.index` raises `ValueError` when
the element is absent, hence the `Option`.  `inputTensor` builds, for every
character of the line, a zero row of length `n_letters` and writes a `1` at
`all_letters.find(letter)` — through Python indexing, so a `-1` find result
addresses the last position.  `targetTensor` collects the find results of the
second to last characters and appends the EOS index `n_letters - 1`. -/

def zerosRow (n : Nat) : List Nat := List.replicate n 0

def pySetOne (l : List Nat) (i : Int) : List Nat :=
  l.set (pyIdx l.length i) 1

def pyListIndex (cats : List String) (category : String) : Option Nat :=
  firstIdxOf category cats

def categoryTensor (cats : List String) (category : String) : Option (List Nat) :=
  (pyListIndex cats category).map (fun li => (zerosRow cats.length).set li 1)

def charIdx (c : Char) : Nat := pyIdx n_letters (pyFind all_letters c)

def inputTensor (line : List Char) : List (List Nat) :=
  line.map (fun c => pySetOne (zerosRow n_letters) (pyFind all_letters c))

def targetTensor (line : List Char) : List Int :=
  (line.drop 1).map (pyFind all_letters) ++ [(n_letters : Int) - 1]

/-- A vector is one-hot at position `i`: entry `i` is `1` and every other
entry is `0` (hence exactly one entry equals one). -/
def IsOneHotAt (v : List Nat) (i : Nat) : Prop :=
  i < v.length ∧ ∀ j (hj : j < v.length), v.get ⟨j, hj⟩ = if j = i then 1 else 0

/-! ## Decoding (specification side of the round-trip claim)

Decoding a one-hot row recovers the position of its `1` and looks that
position up in `all_letters`. -/

def idxOfOne : List Nat → Option Nat
  | [] => none
  | x :: xs => if x = 1 then some 0 else (idxOfOne xs).map (· + 1)

def decodeRow (v : List Nat) : Option Char :=
  (idxOfOne v).bind (fun i => all_letters.get? i)

/-! ## Greedy sampling (cell 22 of the generation notebook)

```
max_length = 20
def sample(category, start_letter='A'):
    ...
    output_name = start_letter
    for i in range(max_length):
        output, hidden = rnn(category_tensor, input[0], hidden)
        topv, topi = output.topk(1)
        topi = topi[0][0]
        if topi == n_letters - 1:
            break
        else:
            letter = all_letters[topi]
            output_name += letter
        input = inputTensor(letter)
    return output_name
```

The trained network is abstracted into `next : List Char → Fin n_letters`,
giving the arg-max index `topi` of the network output as a function of the
generation history (for a fixed category and network, the hidden state and
current input are determined by `output_name`); `topi` lies below `n_letters`
because the output layer has `n_letters` entries.  The `for` loop becomes
fuel-indexed recursion with fuel `max_length`. -/

def max_length : Nat := 20

def sampleLoop (next : List Char → Fin n_letters) : Nat → List Char → List Char
  | 0, out => out
  | fuel + 1, out =>
      let topi := next out
      if h : (topi : Nat) = n_letters - 1 then
        out
      else
        sampleLoop next fuel
          (out ++ [all_letters.get ⟨(topi : Nat), by
            have := topi.isLt
            simp only [n_letters, all_letters_length] at *
            omega⟩])

def sample (next : List Char → Fin n_letters) (start_letter : Char) : List Char :=
  sampleLoop next max_length [start_letter]

/-- A network whose arg-max output is always index `0` (the letter `a`):
used to exercise the sampler on a run that never emits EOS. -/
def constNext0 : List Char → Fin n_letters := fun _ => ⟨0, by decide⟩

/-- A network whose arg-max output is always the EOS index `n_letters - 1`. -/
def eosNext : List Char → Fin n_letters := fun _ => ⟨n_letters - 1, by decide⟩

/-! ## Incremental index-mapping builder (sequence-models notebook)

```
word_to_ix = {}
for sent, tags in training_data:
    for word in sent:
        if word not in word_to_ix:
            word_to_ix[word] = len(word_to_ix)
```
and identically for `char_to_ix` over the characters of the words.  A Python
dict that is only ever extended is modelled as an association list in
insertion order; `word not in d` is `(d.lookup w).isNone` and
`len(d)` is the list length.  The element type is kept generic: the source
instantiates it at `String` (words) and at `Char` (characters). -/

section IndexBuilder

variable {α : Type} [DecidableEq α]

def addToken (m : List (α × Nat)) (w : α) : List (α × Nat) :=
  if (m.lookup w).isSome then m else m ++ [(w, m.length)]

def buildIxFlat (m : List (α × Nat)) (ws : List α) : List (α × Nat) :=
  ws.foldl addToken m

def buildIx (corpus : List (List α)) : List (α × Nat) :=
  corpus.foldl (fun m sent => sent.foldl addToken m) []

/-- One step of first-occurrence deduplication. -/
def firstOccStep (acc : List α) (w : α) : List α :=
  if w ∈ acc then acc else acc ++ [w]

/-- The distinct elements of a list in first-occurrence order. -/
def firstOcc (ws : List α) : List α :=
  ws.foldl firstOccStep []

/-- Model of `prepare_sequence(seq, to_ix)`, which is
`[to_ix[w] for w in seq]`; a missing key raises `KeyError`, hence the
`Option`. -/
def prepare_sequence (seq : List α) (to_ix : List (α × Nat)) : Option (List Nat) :=
  seq.mapM (fun w => to_ix.lookup w)

/-- Specification-side inverse of an index mapping: the (first) token mapped
to a given index. -/
def decodeIx (m : List (α × Nat)) (i : Nat) : Option α :=
  (m.find? (fun p => p.2 == i)).map Prod.fst

end IndexBuilder

/-! ## Unicode normalisation filter (generation notebook, cell 2)

```
def unicodeToAscii(s):
    return ''.join(
        c for c in unicodedata.normalize('NFD', s)
        if unicodedata.category(c) != 'Mn'
        and c in all_letters
    )
def readLines(filename):
    lines = open(filename, encoding='utf-8').read().strip().split('\n')
    return [unicodeToAscii(line) for line in lines]
```
`unicodedata.normalize('NFD', ·)` and the combining-mark test
`unicodedata.category(c) == 'Mn'` are external Unicode-table functions and are
abstracted into parameters `nfd` and `isMn`; file I/O is abstracted by passing
the list of lines of the file. -/

def unicodeToAscii (nfd : String → List Char) (isMn : Char → Bool)
    (s : String) : List Char :=
  (nfd s).filter (fun c => !(isMn c) && all_letters.contains c)

def readLines (nfd : String → List Char) (isMn : Char → Bool)
    (contents : List String) : List (List Char) :=
  contents.map (unicodeToAscii nfd isMn)

/-! ## Data-loading guard (generation notebook, cell 2)

```
category_lines = {}
all_categories = []
for filename in findFiles('data/names_data/names/*.txt'):
    category = os.path.splitext(os.path.basename(filename))[0]
    all_categories.append(category)
    ...
n_categories = len(all_categories)
if n_categories == 0:
    raise RuntimeError('Data not found. ...')
```
`findFiles` is `glob.glob`, an I/O operation: its result is the `files`
parameter.  Loading of each file's lines only affects `category_lines` and is
irrelevant to the guard, which depends solely on `all_categories`. -/

def basename (p : String) : String :=
  ⟨(p.toList.reverse.takeWhile (fun c => c ≠ '/')).reverse⟩

def splitextFst (s : String) : String :=
  let cs := s.toList
  let ext := cs.reverse.takeWhile (fun c => c ≠ '.')
  if ext.length = cs.length then s
  else ⟨(cs.reverse.drop (ext.length + 1)).reverse⟩

def dataNotFoundMsg : String :=
  "Data not found. Make sure that you downloaded data from https://download.pytorch.org/tutorial/data.zip and extract it to the current directory."

def loadCategories (files : List String) : Except String (List String) :=
  let all_categories := files.map (fun filename => splitextFst (basename filename))
  if all_categories.length = 0 then
    Except.error dataNotFoundMsg
  else
    Except.ok all_categories

/-! ## The broken character-augmented tagger (sequence-models notebook)

```
class LSTMCharTagger(nn.Module):
    def __init__(self, word_embedding_dim, hidden_dim, vocab_size,
                 char_embedding_dim, hidden_char_dim, charset_size, tagset_size):
        super(LSTMTaggerWithChar, self).__init__()
        ...
```
The first statement of the constructor evaluates the global name
`LSTMTaggerWithChar`.  The notebook defines the classes `LSTMTagger` and
`LSTMCharTagger` but never a class named `LSTMTaggerWithChar`, so name
resolution fails (a `NameError` in a fresh run; the recorded notebook output
shows a `TypeError` from a stale binding of a previous session) and the rest
of the constructor body never executes.  Only that first statement is
modelled, since execution aborts there. -/

inductive PyError where
  | nameError : String → PyError
  | typeError : String → PyError
  deriving DecidableEq, Repr

def definedClassNames : List String := ["LSTMTagger", "LSTMCharTagger"]

def LSTMCharTagger_init (word_embedding_dim hidden_dim vocab_size
    char_embedding_dim hidden_char_dim charset_size tagset_size : Nat) :
    Except PyError Unit :=
  if "LSTMTaggerWithChar" ∈ definedClassNames then
    Except.ok ()
  else
    Except.error (PyError.nameError "LSTMTaggerWithChar")

/-! ## Part-of-speech training schedule (sequence-models notebook)

```
training_data = [
    ("The dog ate the apple".split(), ["DET", "NN", "V", "DET", "NN"]),
    ("Everybody read that book".split(), ["NN", "V", "DET", "NN"])
]
for epoch in range(300):
    for sentence, tags in training_data:
        model.zero_grad()
        ...
        loss = loss_function(tag_scores, targets)
        loss.backward()
        optimizer.step()
```
The per-example body (gradient reset, forward pass, NLL loss, backward pass,
`optimizer.step()`) is one parameter-update step delegated to the framework;
it is abstracted into `update`, applied once per `(sentence, tags)` pair. -/

def training_data : List (List String × List String) :=
  [(["The", "dog", "ate", "the", "apple"], ["DET", "NN", "V", "DET", "NN"]),
   (["Everybody", "read", "that", "book"], ["NN", "V", "DET", "NN"])]

def trainLoop {θ : Type} (update : θ → List String × List String → θ)
    (init : θ) : θ :=
  (List.range 300).foldl (fun p _ => training_data.foldl update p) init

/-- The examples processed by `trainLoop`, in order: 300 traversals of
`training_data`. -/
def processedExamples : List (List String × List String) :=
  (List.replicate 300 training_data).flatten

/-! ## Lemmas about `firstIdxOf` -/

section FirstIdxOf

variable {α : Type} [DecidableEq α]

theorem firstIdxOf_eq_none_iff {x : α} : ∀ {l : List α}, firstIdxOf x l = none ↔ x ∉ l
  | [] => by simp [firstIdxOf]
  | d :: ds => by
    by_cases h : d = x
    · simp [firstIdxOf, h]
    · simp only [firstIdxOf, if_neg h, Option.map_eq_none', List.mem_cons]
      rw [firstIdxOf_eq_none_iff]
      constructor
      · intro hn hc
        rcases hc with hc | hc
        · exact h hc.symm
        · exact hn hc
      · intro hn hc
        exact hn (Or.inr hc)

theorem firstIdxOf_isSome_of_mem {x : α} {l : List α} (h : x ∈ l) :
    ∃ i, firstIdxOf x l = some i := by
  cases hf : firstIdxOf x l with
  | none => exact absurd h (firstIdxOf_eq_none_iff.mp hf)
  | some i => exact ⟨i, rfl⟩

theorem firstIdxOf_lt_length {x : α} :
    ∀ {l : List α} {i : Nat}, firstIdxOf x l = some i → i < l.length
  | [], i, h => by simp [firstIdxOf] at h
  | d :: ds, i, h => by
    by_cases hd : d = x
    · rw [firstIdxOf, if_pos hd] at h
      cases h
      simp
    · rw [firstIdxOf, if_neg hd] at h
      rw [Option.map_eq_some'] at h
      obtain ⟨j, hj, rfl⟩ := h
      have := firstIdxOf_lt_length hj
      simp only [List.length_cons]
      omega

theorem firstIdxOf_getElem? {x : α} :
    ∀ {l : List α} {i : Nat}, firstIdxOf x l = some i → l[i]? = some x
  | [], i, h => by simp [firstIdxOf] at h
  | d :: ds, i, h => by
    by_cases hd : d = x
    · rw [firstIdxOf, if_pos hd] at h
      cases h
      simp [hd]
    · rw [firstIdxOf, if_neg hd] at h
      rw [Option.map_eq_some'] at h
      obtain ⟨j, hj, rfl⟩ := h
      simpa using firstIdxOf_getElem? hj

end FirstIdxOf

/-! ## Lemmas about `pyFind`, `pyIdx` and `charIdx` -/

theorem pyFind_of_mem {c : Char} (h : c ∈ all_letters) :
    ∃ k, firstIdxOf c all_letters = some k ∧ pyFind all_letters c = (k : Int) ∧
      k < all_letters.length ∧ all_letters[k]? = some c := by
  obtain ⟨k, hk⟩ := firstIdxOf_isSome_of_mem h
  exact ⟨k, hk, by simp [pyFind, hk], firstIdxOf_lt_length hk, firstIdxOf_getElem? hk⟩

theorem pyFind_of_not_mem {c : Char} (h : c ∉ all_letters) :
    pyFind all_letters c = -1 := by
  simp [pyFind, firstIdxOf_eq_none_iff.mpr h]

theorem pyFind_nonneg_of_mem {c : Char} (h : c ∈ all_letters) :
    0 ≤ pyFind all_letters c := by
  obtain ⟨k, _, hp, _, _⟩ := pyFind_of_mem h
  simp [hp]

theorem charIdx_of_mem {c : Char} {k : Nat}
    (hk : firstIdxOf c all_letters = some k) : charIdx c = k := by
  simp only [charIdx, pyFind, pyIdx, hk]
  omega

theorem charIdx_of_not_mem {c : Char} (h : c ∉ all_letters) :
    charIdx c = n_letters - 1 := by
  simp [charIdx, pyFind_of_not_mem h, pyIdx, n_letters, all_letters_length]

theorem charIdx_lt (c : Char) : charIdx c < n_letters := by
  by_cases h : c ∈ all_letters
  · obtain ⟨k, hk, _, hlt, _⟩ := pyFind_of_mem h
    rw [charIdx_of_mem hk]
    simp [n_letters]
    omega
  · rw [charIdx_of_not_mem h]
    simp [n_letters]

theorem charIdx_lt_of_mem {c : Char} (h : c ∈ all_letters) :
    charIdx c < n_letters - 1 := by
  obtain ⟨k, hk, _, hlt, _⟩ := pyFind_of_mem h
  rw [charIdx_of_mem hk]
  simpa [n_letters] using hlt

/-! ## Lemmas about one-hot rows -/

theorem zerosRow_length (n : Nat) : (zerosRow n).length = n := by
  simp [zerosRow]

theorem isOneHotAt_set {n k : Nat} (hk : k < n) :
    IsOneHotAt ((zerosRow n).set k 1) k := by
  constructor
  · simpa [zerosRow] using hk
  · intro j hj
    have hj' : j < n := by simpa [zerosRow] using hj
    rw [List.get_eq_getElem]
    rw [List.getElem_set]
    by_cases h : k = j
    · simp [h]
    · have : j ≠ k := fun hc => h hc.symm
      simp [h, this, zerosRow, List.getElem_replicate]

theorem pySetOne_zerosRow (c : Char) :
    pySetOne (zerosRow n_letters) (pyFind all_letters c) =
      (zerosRow n_letters).set (charIdx c) 1 := by
  simp [pySetOne, charIdx, zerosRow]

theorem idxOfOne_zerosRow_set : ∀ n k, k < n →
    idxOfOne ((zerosRow n).set k 1) = some k := by
  intro n
  induction n with
  | zero => intro k hk; omega
  | succ m ih =>
    intro k hk
    cases k with
    | zero => simp [zerosRow, List.replicate_succ, idxOfOne]
    | succ j =>
      have hj : j < m := by omega
      simp only [zerosRow, List.replicate_succ, List.set_cons_succ, idxOfOne,
        OfNat.zero_ne_ofNat, if_neg (by omega : (0 : Nat) ≠ 1)]
      rw [show List.replicate m 0 = zerosRow m from rfl, ih j hj]
      rfl

theorem decodeRow_encode {c : Char} (h : c ∈ all_letters) :
    decodeRow (pySetOne (zerosRow n_letters) (pyFind all_letters c)) = some c := by
  obtain ⟨k, hk, hp, hlt, hget⟩ := pyFind_of_mem h
  rw [pySetOne_zerosRow, charIdx_of_mem hk, decodeRow,
    idxOfOne_zerosRow_set n_letters k (by simp [n_letters]; omega)]
  simpa [List.get?_eq_getElem?] using hget

/-! ## Lemmas about the sampling loop -/

theorem sampleLoop_length_le (next : List Char → Fin n_letters) :
    ∀ (fuel : Nat) (out : List Char),
      (sampleLoop next fuel out).length ≤ out.length + fuel := by
  intro fuel
  induction fuel with
  | zero => intro out; simp [sampleLoop]
  | succ m ih =>
    intro out
    rw [sampleLoop]
    by_cases h : ((next out : Nat) = n_letters - 1)
    · simp only [dif_pos h]
      omega
    · simp only [dif_neg h]
      have := ih (out ++ [all_letters.get ⟨(next out : Nat), by
        have := (next out).isLt
        simp only [n_letters, all_letters_length] at *
        omega⟩])
      simp only [List.length_append, List.length_singleton] at this
      omega

theorem sampleLoop_append_all_letters (next : List Char → Fin n_letters) :
    ∀ (fuel : Nat) (out : List Char),
      ∃ suffix : List Char, sampleLoop next fuel out = out ++ suffix ∧
        ∀ c ∈ suffix, c ∈ all_letters := by
  intro fuel
  induction fuel with
  | zero =>
    intro out
    exact ⟨[], by simp [sampleLoop]⟩
  | succ m ih =>
    intro out
    rw [sampleLoop]
    by_cases h : ((next out : Nat) = n_letters - 1)
    · exact ⟨[], by simp [dif_pos h]⟩
    · simp only [dif_neg h]
      set letter := all_letters.get ⟨(next out : Nat), by
        have := (next out).isLt
        simp only [n_letters, all_letters_length] at *
        omega⟩ with hletter
      obtain ⟨suffix, hs, hmem⟩ := ih (out ++ [letter])
      refine ⟨letter :: suffix, by simpa using hs, ?_⟩
      intro c hc
      rcases List.mem_cons.mp hc with hc | hc
      · rw [hc, hletter]
        exact List.get_mem all_letters _ _
      · exact hmem c hc

/-! ## Lemmas about the index-mapping builder -/

section IndexBuilderLemmas

variable {α : Type} [DecidableEq α]

theorem lookup_isSome_iff :
    ∀ (m : List (α × Nat)) (w : α), (m.lookup w).isSome ↔ w ∈ m.map Prod.fst
  | [], w => by simp [List.lookup]
  | (a, b) :: m, w => by
    by_cases h : w = a
    · simp [List.lookup, h]
    · have hb : (w == a) = false := beq_eq_false_iff_ne.mpr h
      simp only [List.lookup, hb, List.map_cons, List.mem_cons]
      rw [lookup_isSome_iff]
      exact ⟨Or.inr, fun hc => hc.elim (fun he => absurd he h) id⟩

theorem lookup_eq_some_mem :
    ∀ {m : List (α × Nat)} {w : α} {i : Nat}, m.lookup w = some i → (w, i) ∈ m
  | [], w, i, h => by simp [List.lookup] at h
  | (a, b) :: m, w, i, h => by
    by_cases hw : w = a
    · have hb : (w == a) = true := beq_iff_eq.mpr hw
      simp only [List.lookup, hb] at h
      cases h
      simp [hw]
    · have hb : (w == a) = false := beq_eq_false_iff_ne.mpr hw
      simp only [List.lookup, hb] at h
      exact List.mem_cons_of_mem _ (lookup_eq_some_mem h)

theorem snd_addToken {m : List (α × Nat)} (w : α)
    (hm : m.map Prod.snd = List.range m.length) :
    (addToken m w).map Prod.snd = List.range (addToken m w).length := by
  rw [addToken]
  by_cases h : (m.lookup w).isSome
  · simp [h, hm]
  · simp [h, hm, List.range_succ]

theorem fst_addToken (m : List (α × Nat)) (w : α) :
    (addToken m w).map Prod.fst = firstOccStep (m.map Prod.fst) w := by
  rw [addToken, firstOccStep]
  by_cases h : (m.lookup w).isSome
  · rw [if_pos h, if_pos ((lookup_isSome_iff m w).mp h)]
  · rw [if_neg h, if_neg (fun hc => h ((lookup_isSome_iff m w).mpr hc))]
    simp

theorem snd_buildIxFlat :
    ∀ (ws : List α) (m : List (α × Nat)),
      m.map Prod.snd = List.range m.length →
      (buildIxFlat m ws).map Prod.snd = List.range (buildIxFlat m ws).length
  | [], m, hm => hm
  | w :: ws, m, hm => by
    rw [buildIxFlat, List.foldl_cons]
    exact snd_buildIxFlat ws (addToken m w) (snd_addToken w hm)

theorem fst_buildIxFlat :
    ∀ (ws : List α) (m : List (α × Nat)),
      (buildIxFlat m ws).map Prod.fst = ws.foldl firstOccStep (m.map Prod.fst)
  | [], m => rfl
  | w :: ws, m => by
    rw [buildIxFlat, List.foldl_cons, List.foldl_cons, ← fst_addToken]
    exact fst_buildIxFlat ws (addToken m w)

theorem buildIx_eq_flat_aux :
    ∀ (corpus : List (List α)) (m : List (α × Nat)),
      corpus.foldl (fun acc sent => sent.foldl addToken acc) m =
        buildIxFlat m corpus.flatten
  | [], m => rfl
  | s :: rest, m => by
    rw [List.foldl_cons, List.flatten_cons, buildIxFlat, List.foldl_append]
    exact buildIx_eq_flat_aux rest (s.foldl addToken m)

theorem buildIx_eq_flat (corpus : List (List α)) :
    buildIx corpus = buildIxFlat [] corpus.flatten :=
  buildIx_eq_flat_aux corpus []

theorem mem_foldl_firstOccStep :
    ∀ (ws : List α) (acc : List α) (w : α),
      w ∈ ws.foldl firstOccStep acc ↔ w ∈ acc ∨ w ∈ ws
  | [], acc, w => by simp
  | s :: ws, acc, w => by
    rw [List.foldl_cons, mem_foldl_firstOccStep ws]
    rw [firstOccStep]
    by_cases h : s ∈ acc
    · rw [if_pos h]
      constructor
      · rintro (ha | hw)
        · exact Or.inl ha
        · exact Or.inr (List.mem_cons_of_mem _ hw)
      · rintro (ha | hw)
        · exact Or.inl ha
        · rcases List.mem_cons.mp hw with rfl | hw
          · exact Or.inl h
          · exact Or.inr hw
    · rw [if_neg h]
      simp only [List.mem_append, List.mem_singleton, List.mem_cons]
      tauto

theorem nodup_foldl_firstOccStep :
    ∀ (ws : List α) (acc : List α), acc.Nodup → (ws.foldl firstOccStep acc).Nodup
  | [], acc, ha => ha
  | s :: ws, acc, ha => by
    rw [List.foldl_cons]
    refine nodup_foldl_firstOccStep ws _ ?_
    rw [firstOccStep]
    by_cases h : s ∈ acc
    · rwa [if_pos h]
    · rw [if_neg h]
      simp [List.nodup_append, ha, h]

theorem find?_eq_of_snd_range' :
    ∀ (m : List (α × Nat)) (s : Nat), m.map Prod.snd = List.range' s m.length →
      ∀ {w : α} {i : Nat}, (w, i) ∈ m → m.find? (fun p => p.2 == i) = some (w, i)
  | [], s, hm, w, i, hmem => by simp at hmem
  | p :: m, s, hm, w, i, hmem => by
    rw [List.map_cons, List.length_cons, List.range'_succ] at hm
    have hp2 : p.2 = s := (List.cons.injEq _ _ _ _ |>.mp hm).1
    have hm' : m.map Prod.snd = List.range' (s + 1) m.length :=
      (List.cons.injEq _ _ _ _ |>.mp hm).2
    rcases List.mem_cons.mp hmem with rfl | hmem'
    · exact List.find?_cons_of_pos _ (by simp)
    · have hi : s + 1 ≤ i := by
        have : i ∈ m.map Prod.snd := List.mem_map_of_mem Prod.snd hmem'
        rw [hm'] at this
        exact (List.mem_range'_1.mp this).1
      have hne : (p.2 == i) = false := by
        rw [beq_eq_false_iff_ne]
        omega
      rw [List.find?_cons_of_neg _ (by simp [hne])]
      exact find?_eq_of_snd_range' m (s + 1) hm' hmem'

theorem decodeIx_lookup {m : List (α × Nat)}
    (hm : m.map Prod.snd = List.range m.length) {w : α} {i : Nat}
    (hl : m.lookup w = some i) : decodeIx m i = some w := by
  rw [List.range_eq_range'] at hm
  rw [decodeIx, find?_eq_of_snd_range' m 0 hm (lookup_eq_some_mem hl)]
  rfl

theorem prepare_decode {m : List (α × Nat)}
    (hm : m.map Prod.snd = List.range m.length) :
    ∀ (seq : List α), (∀ w ∈ seq, (m.lookup w).isSome) →
      ∃ idxs, prepare_sequence seq m = some idxs ∧
        idxs.mapM (decodeIx m) = some seq
  | [], _ => ⟨[], rfl, rfl⟩
  | w :: ws, h => by
    obtain ⟨i, hi⟩ := Option.isSome_iff_exists.mp (h w (List.mem_cons_self w ws))
    obtain ⟨idxs, hp, hd⟩ :=
      prepare_decode hm ws (fun v hv => h v (List.mem_cons_of_mem w hv))
    refine ⟨i :: idxs, ?_, ?_⟩
    · rw [prepare_sequence] at hp ⊢
      rw [List.mapM_cons, hi, hp]
      rfl
    · rw [List.mapM_cons, decodeIx_lookup hm hi, hd]
      rfl

end IndexBuilderLemmas

/-! ## Lemma about the training schedule -/

theorem foldl_range_eq_foldl_flatten {θ : Type}
    (update : θ → List String × List String → θ) :
    ∀ (n : Nat) (init : θ),
      (List.range n).foldl (fun p _ => training_data.foldl update p) init =
        ((List.replicate n training_data).flatten).foldl update init := by
  intro n
  induction n with
  | zero => intro init; rfl
  | succ m ih =>
    intro init
    rw [List.range_succ, List.foldl_append, ih, List.replicate_succ',
      List.flatten_append, List.foldl_append]
    simp

/-! # Claim theorems -/

set_option maxRecDepth 400000

/-- C1 (counterexample): under a network whose arg-max output is always letter
index `0`, `sample` from start letter `A` returns a string of length `21`,
strictly exceeding `max_length = 20`: the loop appends up to `max_length`
characters after the start letter, so the claim that the returned string's
length never exceeds `max_length` is false. -/
theorem sample_exceeds_max_length :
    max_length < (sample constNext0 'A').length := by decide

/-- C1 (amended): for every network behaviour and start letter, the string
returned by `sample` has length at most `max_length + 1`: the start letter
plus at most `max_length` generated characters. -/
theorem sample_length_le (next : List Char → Fin n_letters)
    (start_letter : Char) :
    (sample next start_letter).length ≤ max_length + 1 := by
  have := sampleLoop_length_le next max_length [start_letter]
  rw [sample]
  simp only [List.length_singleton] at this
  omega

/-- Witness for the amended C1 at the EOS-free network and start letter
`A`. -/
theorem sample_length_le_witness :
    (sample constNext0 'A').length ≤ max_length + 1 :=
  sample_length_le constNext0 'A'

/-- C2: the incremental index-mapping builder assigns an index to exactly the
tokens occurring in the corpus, each distinct token exactly once (the key list
has no duplicates), keys appear in first-occurrence order of the corpus
traversal, and the assigned indices are exactly `0, 1, ..., n-1` in that
order. -/
theorem buildIx_spec (α : Type) (inst : DecidableEq α)
    (corpus : List (List α)) :
    (∀ w, ((buildIx corpus).lookup w).isSome ↔ w ∈ corpus.flatten) ∧
    ((buildIx corpus).map Prod.fst).Nodup ∧
    (buildIx corpus).map Prod.fst = firstOcc corpus.flatten ∧
    (buildIx corpus).map Prod.snd = List.range (buildIx corpus).length := by
  have hflat := buildIx_eq_flat corpus
  have hfst : (buildIx corpus).map Prod.fst = firstOcc corpus.flatten := by
    rw [hflat, fst_buildIxFlat]
    rfl
  refine ⟨?_, ?_, hfst, ?_⟩
  · intro w
    rw [lookup_isSome_iff, hfst, firstOcc, mem_foldl_firstOccStep]
    simp
  · rw [hfst, firstOcc]
    exact nodup_foldl_firstOccStep _ [] List.nodup_nil
  · rw [hflat]
    exact snd_buildIxFlat _ [] rfl

/-- Witness for C2 at the concrete corpus `[["a", "b", "a"], ["c", "b"]]`. -/
theorem buildIx_spec_witness :
    (∀ w, ((buildIx [["a", "b", "a"], ["c", "b"]]).lookup w).isSome ↔
      w ∈ ([["a", "b", "a"], ["c", "b"]] : List (List String)).flatten) ∧
    ((buildIx [["a", "b", "a"], ["c", "b"]]).map Prod.fst).Nodup ∧
    (buildIx [["a", "b", "a"], ["c", "b"]]).map Prod.fst =
      firstOcc ([["a", "b", "a"], ["c", "b"]] : List (List String)).flatten ∧
    (buildIx [["a", "b", "a"], ["c", "b"]]).map Prod.snd =
      List.range (buildIx [["a", "b", "a"], ["c", "b"]]).length :=
  buildIx_spec String inferInstance [["a", "b", "a"], ["c", "b"]]

/-- C3: for a category present in `all_categories`, `categoryTensor` is
defined and one-hot at the category's index; for a character of the line that
occurs in `all_letters`, the corresponding row of `inputTensor` is one-hot at
that character's index in `all_letters`. -/
theorem one_hot_spec :
    (∀ (cats : List String) (category : String), category ∈ cats →
      ∃ li, pyListIndex cats category = some li ∧
        categoryTensor cats category = some ((zerosRow cats.length).set li 1) ∧
        IsOneHotAt ((zerosRow cats.length).set li 1) li) ∧
    (∀ (ln : List Char) (i : Nat) (c : Char), ln[i]? = some c →
      c ∈ all_letters →
      ∃ k : Nat, pyFind all_letters c = (k : Int) ∧
        (inputTensor ln)[i]? = some ((zerosRow n_letters).set k 1) ∧
        IsOneHotAt ((zerosRow n_letters).set k 1) k) := by
  constructor
  · intro cats category hc
    obtain ⟨li, hli⟩ := firstIdxOf_isSome_of_mem hc
    have hlt : li < cats.length := firstIdxOf_lt_length hli
    exact ⟨li, hli, by simp [categoryTensor, pyListIndex, hli],
      isOneHotAt_set hlt⟩
  · intro ln i c hgc hmem
    obtain ⟨k, hk, hp, hlt, _⟩ := pyFind_of_mem hmem
    refine ⟨k, hp, ?_, isOneHotAt_set (by simp only [zerosRow_length, n_letters]; omega)⟩
    rw [inputTensor, List.getElem?_map, hgc]
    simp [pySetOne_zerosRow, charIdx_of_mem hk]

/-- Witness for C3 at the concrete category list `["Russian", "German"]` with
category `"German"`, and the concrete line `"ab"` at position `1`. -/
theorem one_hot_spec_witness :
    (∃ li, pyListIndex ["Russian", "German"] "German" = some li ∧
      categoryTensor ["Russian", "German"] "German" =
        some ((zerosRow (["Russian", "German"] : List String).length).set li 1) ∧
      IsOneHotAt ((zerosRow (["Russian", "German"] : List String).length).set li 1) li) ∧
    (∃ k : Nat, pyFind all_letters 'b' = (k : Int) ∧
      (inputTensor ['a', 'b'])[1]? = some ((zerosRow n_letters).set k 1) ∧
      IsOneHotAt ((zerosRow n_letters).set k 1) k) :=
  ⟨one_hot_spec.1 ["Russian", "German"] "German" (by decide),
   one_hot_spec.2 ['a', 'b'] 1 'b' (by decide) (by decide)⟩

/-- C4: encoding a line whose characters all occur in `all_letters` with
`inputTensor` and decoding each row back through `all_letters` recovers the
line; and for a vocabulary built by the index builder, the indices produced by
`prepare_sequence` decode through the inverse mapping back to the original
token sequence. -/
theorem round_trip_spec :
    (∀ ln : List Char, (∀ c ∈ ln, c ∈ all_letters) →
      (inputTensor ln).map decodeRow = ln.map some) ∧
    (∀ (α : Type) (inst : DecidableEq α) (corpus : List (List α))
      (seq : List α),
      (∀ w ∈ seq, ((buildIx corpus).lookup w).isSome) →
      ∃ idxs, prepare_sequence seq (buildIx corpus) = some idxs ∧
        idxs.mapM (decodeIx (buildIx corpus)) = some seq) := by
  constructor
  · intro ln h
    rw [inputTensor, List.map_map]
    refine List.map_congr_left (fun c hc => ?_)
    exact decodeRow_encode (h c hc)
  · intro α inst corpus seq h
    refine prepare_decode ?_ seq h
    rw [buildIx_eq_flat]
    exact snd_buildIxFlat _ [] rfl

/-- Witness for C4 at the concrete line `"ab"` and the concrete corpus
`[["x", "y"]]` with query sequence `["y", "x"]`. -/
theorem round_trip_spec_witness :
    (inputTensor ['a', 'b']).map decodeRow = ['a', 'b'].map some ∧
    (∃ idxs, prepare_sequence ["y", "x"] (buildIx [["x", "y"]]) = some idxs ∧
      idxs.mapM (decodeIx (buildIx [["x", "y"]])) = some ["y", "x"]) :=
  ⟨round_trip_spec.1 ['a', 'b'] (by decide),
   round_trip_spec.2 String inferInstance [["x", "y"]] ["y", "x"] (by decide)⟩

/-- C5: if the sampling loop's arg-max index equals the EOS index
`n_letters - 1` at some iteration, the loop returns the accumulated name
unchanged at that iteration (nothing further is appended); moreover every
character after the start letter is a member of `all_letters`, whose first
index is strictly below the EOS index, so the EOS marker never appears as a
character of the returned string. -/
theorem sample_eos_spec :
    (∀ (next : List Char → Fin n_letters) (fuel : Nat) (out : List Char),
      (next out : Nat) = n_letters - 1 → sampleLoop next (fuel + 1) out = out) ∧
    (∀ (next : List Char → Fin n_letters) (start_letter c : Char),
      c ∈ (sample next start_letter).drop 1 →
        c ∈ all_letters ∧ charIdx c < n_letters - 1) := by
  constructor
  · intro next fuel out h
    rw [sampleLoop, dif_pos h]
  · intro next start c hc
    obtain ⟨suffix, hs, hmem⟩ :=
      sampleLoop_append_all_letters next max_length [start]
    rw [sample, hs] at hc
    have hcs : c ∈ suffix := by simpa using hc
    exact ⟨hmem c hcs, charIdx_lt_of_mem (hmem c hcs)⟩

/-- Witness for C5: a network that immediately emits EOS returns the start
string unchanged, and a character generated by an EOS-free run lies in
`all_letters` below the EOS index. -/
theorem sample_eos_spec_witness :
    sampleLoop eosNext 20 ['A'] = ['A'] ∧
    ('a' ∈ all_letters ∧ charIdx 'a' < n_letters - 1) :=
  ⟨sample_eos_spec.1 eosNext 19 ['A'] (by decide),
   sample_eos_spec.2 constNext0 'A' 'a' (by decide)⟩

/-- C6: constructing an `LSTMCharTagger` fails for every argument tuple: the
first statement of the constructor resolves the name `LSTMTaggerWithChar`
for its `super()` call, which matches none of the defined classes, so an
error is raised before any training or forward pass can run. -/
theorem lstmCharTagger_init_fails (a b c d e f g : Nat) :
    LSTMCharTagger_init a b c d e f g =
      Except.error (PyError.nameError "LSTMTaggerWithChar") := rfl

/-- Witness for C6 at the argument tuple the notebook passes (embedding and
hidden dimensions 6, 3, 6, 3 and the vocabulary, charset and tagset sizes 9,
13, 3). -/
theorem lstmCharTagger_init_fails_witness :
    LSTMCharTagger_init 6 3 6 3 9 13 3 =
      Except.error (PyError.nameError "LSTMTaggerWithChar") :=
  lstmCharTagger_init_fails 6 3 6 3 9 13 3

/-- C7: the data-loading step fails with the downloading-instructions message
exactly when the glob matches zero files (`n_categories == 0`); with at least
one matched file it succeeds. -/
theorem load_guard_spec (files : List String) :
    (loadCategories files = Except.error dataNotFoundMsg ↔ files.length = 0) ∧
    ((∃ cats, loadCategories files = Except.ok cats) ↔ files.length ≠ 0) := by
  cases files with
  | nil => simp [loadCategories]
  | cons f fs => simp [loadCategories]

/-- Witness for C7 at the empty glob result and at a single matched file. -/
theorem load_guard_spec_witness :
    ((loadCategories [] = Except.error dataNotFoundMsg ↔
        ([] : List String).length = 0) ∧
      ((∃ cats, loadCategories [] = Except.ok cats) ↔
        ([] : List String).length ≠ 0)) ∧
    ((loadCategories ["data/names_data/names/Arabic.txt"] =
          Except.error dataNotFoundMsg ↔
        ["data/names_data/names/Arabic.txt"].length = 0) ∧
      ((∃ cats, loadCategories ["data/names_data/names/Arabic.txt"] =
          Except.ok cats) ↔
        ["data/names_data/names/Arabic.txt"].length ≠ 0)) :=
  ⟨load_guard_spec [], load_guard_spec ["data/names_data/names/Arabic.txt"]⟩

/-- C8: the part-of-speech training loop is 300 epochs, each traversing
exactly the two hard-coded training sentences with one parameter update (the
loss/backward/step body, abstracted as `update`) per sentence: it folds the
update over 300 concatenated copies of `training_data`, 600 updates in
total. -/
theorem train_loop_schedule :
    (∀ (θ : Type) (update : θ → List String × List String → θ) (init : θ),
      trainLoop update init = processedExamples.foldl update init) ∧
    processedExamples = (List.replicate 300 training_data).flatten ∧
    processedExamples.length = 300 * training_data.length ∧
    training_data.length = 2 := by
  refine ⟨?_, rfl, ?_, rfl⟩
  · intro θ update init
    rw [trainLoop, processedExamples]
    exact foldl_range_eq_foldl_flatten update 300 init
  · rw [processedExamples, List.length_flatten, List.map_replicate,
      List.sum_replicate, smul_eq_mul]

/-- C9: every character of `unicodeToAscii(s)` is a member of `all_letters`
(the function filters — a sublist of its normalised input — so non-members
and combining marks are dropped, not replaced); hence every line produced by
`readLines` contains only `all_letters` characters, on which
`all_letters.find` is non-negative. -/
theorem unicodeToAscii_spec :
    (∀ (nfd : String → List Char) (isMn : Char → Bool) (s : String) (c : Char),
      c ∈ unicodeToAscii nfd isMn s → c ∈ all_letters ∧ 0 ≤ pyFind all_letters c) ∧
    (∀ (nfd : String → List Char) (isMn : Char → Bool) (s : String),
      (unicodeToAscii nfd isMn s).Sublist (nfd s)) ∧
    (∀ (nfd : String → List Char) (isMn : Char → Bool) (contents : List String)
      (ln : List Char) (c : Char), ln ∈ readLines nfd isMn contents →
      c ∈ ln → c ∈ all_letters ∧ 0 ≤ pyFind all_letters c) := by
  have key : ∀ (nfd : String → List Char) (isMn : Char → Bool) (s : String)
      (c : Char), c ∈ unicodeToAscii nfd isMn s → c ∈ all_letters := by
    intro nfd isMn s c hc
    rw [unicodeToAscii] at hc
    have hb := (List.mem_filter.mp hc).2
    simp only [Bool.and_eq_true] at hb
    simpa using hb.2
  refine ⟨fun nfd isMn s c hc =>
      ⟨key _ _ _ _ hc, pyFind_nonneg_of_mem (key _ _ _ _ hc)⟩, ?_, ?_⟩
  · intro nfd isMn s
    exact List.filter_sublist _
  · intro nfd isMn contents ln c hline hc
    obtain ⟨s, hs, rfl⟩ := List.mem_map.mp hline
    exact ⟨key _ _ _ _ hc, pyFind_nonneg_of_mem (key _ _ _ _ hc)⟩

/-- Witness for C9 with the identity normalisation, no combining marks, and
the concrete input `"ab"`. -/
theorem unicodeToAscii_spec_witness :
    ('a' ∈ all_letters ∧ 0 ≤ pyFind all_letters 'a') ∧
    (unicodeToAscii String.toList (fun _ => false) "ab").Sublist "ab".toList ∧
    ('b' ∈ all_letters ∧ 0 ≤ pyFind all_letters 'b') :=
  ⟨unicodeToAscii_spec.1 String.toList (fun _ => false) "ab" 'a' (by decide),
   unicodeToAscii_spec.2.1 String.toList (fun _ => false) "ab",
   unicodeToAscii_spec.2.2 String.toList (fun _ => false) ["ab"]
     (unicodeToAscii String.toList (fun _ => false) "ab") 'b'
     (by decide) (by decide)⟩

/-- C10: for a character outside `all_letters`, `inputTensor` and
`targetTensor` do not fail: `find` returns `-1`; through Python indexing
`-1` addresses the last position, so the input row carries its single one at
position `n_letters - 1` — identically to a one at the EOS index — and the
target entry is `-1`, which as a Python index addresses the same position
`n_letters - 1` as the EOS entry `n_letters - 1`. -/
theorem unknown_char_spec (c : Char) (h : c ∉ all_letters) :
    pyFind all_letters c = -1 ∧
    charIdx c = n_letters - 1 ∧
    (∀ (ln : List Char) (i : Nat), ln[i]? = some c →
      (inputTensor ln)[i]? =
        some ((zerosRow n_letters).set (n_letters - 1) 1)) ∧
    IsOneHotAt ((zerosRow n_letters).set (n_letters - 1) 1) (n_letters - 1) ∧
    (∀ ln : List Char, targetTensor ln =
      (ln.drop 1).map (pyFind all_letters) ++ [(n_letters : Int) - 1]) ∧
    (∀ (ln : List Char) (i : Nat), (ln.drop 1)[i]? = some c →
      ((ln.drop 1).map (pyFind all_letters))[i]? = some (-1)) ∧
    pyIdx n_letters (-1) = n_letters - 1 ∧
    pyIdx n_letters ((n_letters : Int) - 1) = n_letters - 1 := by
  refine ⟨pyFind_of_not_mem h, charIdx_of_not_mem h, ?_,
    isOneHotAt_set (by simp [zerosRow_length, n_letters]), fun ln => rfl,
    ?_, by decide, by decide⟩
  · intro ln i hi
    rw [inputTensor, List.getElem?_map, hi]
    simp [pySetOne_zerosRow, charIdx_of_not_mem h]
  · intro ln i hi
    rw [List.getElem?_map, hi]
    simp [pyFind_of_not_mem h]

/-- Witness for C10 at the exclamation mark, a character not in
`all_letters`, on the concrete line `"a!"`. -/
theorem unknown_char_spec_witness :
    pyFind all_letters (Char.ofNat 33) = -1 ∧
    charIdx (Char.ofNat 33) = n_letters - 1 ∧
    (∀ (ln : List Char) (i : Nat), ln[i]? = some (Char.ofNat 33) →
      (inputTensor ln)[i]? =
        some ((zerosRow n_letters).set (n_letters - 1) 1)) ∧
    IsOneHotAt ((zerosRow n_letters).set (n_letters - 1) 1) (n_letters - 1) ∧
    (∀ ln : List Char, targetTensor ln =
      (ln.drop 1).map (pyFind all_letters) ++ [(n_letters : Int) - 1]) ∧
    (∀ (ln : List Char) (i : Nat),
      (ln.drop 1)[i]? = some (Char.ofNat 33) →
      ((ln.drop 1).map (pyFind all_letters))[i]? = some (-1)) ∧
    pyIdx n_letters (-1) = n_letters - 1 ∧
    pyIdx n_letters ((n_letters : Int) - 1) = n_letters - 1 :=
  unknown_char_spec (Char.ofNat 33) (by decide)

end PyTutorial
